import Mathlib

/-!
Verification of the mailbox subsystem (`hyperactor/src/mailbox.rs`).

The data model and operations below are a shallow embedding of the Rust
source. `Reference` (its total order and prefix relation) lives in
`reference.rs`, which is not among the sources; it is modelled from the
spec where noted.
-/

/-- Lexicographic order on character lists (the order underlying the
string order used by reference keys). -/
def charListLt : List Char → List Char → Bool
  | [], [] => false
  | [], _ :: _ => true
  | _ :: _, [] => false
  | a :: as, b :: bs => decide (a < b) || (decide (a = b) && charListLt as bs)

theorem charListLt_irrefl : ∀ (x : List Char), charListLt x x = false
  | [] => rfl
  | a :: as => by simp [charListLt, charListLt_irrefl as]

theorem charListLt_trans : ∀ {x y z : List Char},
    charListLt x y = true → charListLt y z = true → charListLt x z = true
  | [], [], _, h1, _ => by simp [charListLt] at h1
  | [], _ :: _, [], _, h2 => by simp [charListLt] at h2
  | [], _ :: _, _ :: _, _, _ => by simp [charListLt]
  | _ :: _, [], _, h1, _ => by simp [charListLt] at h1
  | _ :: _, _ :: _, [], _, h2 => by simp [charListLt] at h2
  | a :: as, b :: bs, c :: cs, h1, h2 => by
      simp [charListLt] at h1 h2 ⊢
      rcases h1 with h1 | ⟨rfl, h1⟩
      · rcases h2 with h2 | ⟨rfl, h2⟩
        · exact Or.inl (lt_trans h1 h2)
        · exact Or.inl h1
      · rcases h2 with h2 | ⟨rfl, h2⟩
        · exact Or.inl h2
        · exact Or.inr ⟨rfl, charListLt_trans h1 h2⟩

theorem charListLt_total : ∀ (x y : List Char),
    charListLt x y = true ∨ x = y ∨ charListLt y x = true
  | [], [] => Or.inr (Or.inl rfl)
  | [], _ :: _ => Or.inl (by simp [charListLt])
  | _ :: _, [] => Or.inr (Or.inr (by simp [charListLt]))
  | a :: as, b :: bs => by
      rcases lt_trichotomy a b with h | h | h
      · exact Or.inl (by simp [charListLt, h])
      · subst h
        rcases charListLt_total as bs with h2 | h2 | h2
        · exact Or.inl (by simp [charListLt, h2])
        · exact Or.inr (Or.inl (by rw [h2]))
        · exact Or.inr (Or.inr (by simp [charListLt, h2]))
      · exact Or.inr (Or.inr (by simp [charListLt, h]))

/-- A component of a hierarchical reference: a number (proc rank or actor
pid) or a string (world or actor name). Modelled from the spec: `ActorId`
is a composite identifier `(world, proc, name, pid)` with a total order
and a prefix relation (`reference.rs` is not part of the sources). -/
inductive Comp where
  | num (n : Nat)
  | str (s : String)
deriving DecidableEq, Repr

/-- Total order on components; at any fixed chain position only one
constructor occurs, so the cross-constructor ordering is arbitrary. -/
def Comp.lt : Comp → Comp → Bool
  | .num m, .num n => decide (m < n)
  | .num _, .str _ => true
  | .str _, .num _ => false
  | .str s, .str t => charListLt s.data t.data

theorem Comp.lt_irrefl (a : Comp) : Comp.lt a a = false := by
  cases a with
  | num n => simp [Comp.lt]
  | str s => simp [Comp.lt, charListLt_irrefl]

theorem Comp.lt_trans : ∀ {a b c : Comp},
    Comp.lt a b = true → Comp.lt b c = true → Comp.lt a c = true
  | .num _, .num _, .num _, h1, h2 => by
      simp [Comp.lt] at h1 h2 ⊢; omega
  | .num _, .num _, .str _, _, _ => by simp [Comp.lt]
  | .num _, .str _, .num _, _, h2 => by simp [Comp.lt] at h2
  | .num _, .str _, .str _, _, _ => by simp [Comp.lt]
  | .str _, .num _, .num _, h1, _ => by simp [Comp.lt] at h1
  | .str _, .num _, .str _, h1, _ => by simp [Comp.lt] at h1
  | .str s, .str t, .str u, h1, h2 => by
      simp only [Comp.lt] at h1 h2 ⊢
      exact charListLt_trans h1 h2

theorem Comp.lt_asymm {a b : Comp} (h : Comp.lt a b = true) : Comp.lt b a = false := by
  cases hba : Comp.lt b a with
  | false => rfl
  | true =>
    have := Comp.lt_trans h hba
    rw [Comp.lt_irrefl] at this
    exact absurd this (by simp)

theorem Comp.lt_total : ∀ (a b : Comp), Comp.lt a b = true ∨ a = b ∨ Comp.lt b a = true
  | .num m, .num n => by
      rcases Nat.lt_trichotomy m n with h | h | h
      · exact Or.inl (by simp [Comp.lt, h])
      · exact Or.inr (Or.inl (by rw [h]))
      · exact Or.inr (Or.inr (by simp [Comp.lt, h]))
  | .num _, .str _ => Or.inl (by simp [Comp.lt])
  | .str _, .num _ => Or.inr (Or.inr (by simp [Comp.lt]))
  | .str s, .str t => by
      rcases charListLt_total s.data t.data with h | h | h
      · exact Or.inl (by simp [Comp.lt, h])
      · refine Or.inr (Or.inl ?_)
        cases s; cases t
        simp at h
        rw [h]
      · exact Or.inr (Or.inr (by simp [Comp.lt, h]))

/-- A hierarchical reference: a chain of components, e.g. `[world]`,
`[world, rank]`, `[world, rank, name]`, `[world, rank, name, pid]`.
Modelled from the spec: "an ActorId-shaped prefix key" with a total
(lexicographic) order in which a shorter chain sorts before its
extensions. -/
abbrev Reference := List Comp

/-- Lexicographic strict order on references (shorter chains sort first). -/
def refLt : Reference → Reference → Bool
  | [], [] => false
  | [], _ :: _ => true
  | _ :: _, [] => false
  | a :: as, b :: bs => Comp.lt a b || (decide (a = b) && refLt as bs)

/-- Reflexive closure of `refLt`. -/
def refLe (x y : Reference) : Bool := refLt x y || decide (x = y)

/-- The prefix relation on references. Modelled from the spec: routers
dispatch to the sender "bound to its nearest prefix". -/
def isPrefixOf : Reference → Reference → Bool
  | [], _ => true
  | _ :: _, [] => false
  | a :: as, b :: bs => decide (a = b) && isPrefixOf as bs

theorem refLt_irrefl : ∀ (x : Reference), refLt x x = false
  | [] => rfl
  | a :: as => by simp [refLt, Comp.lt_irrefl, refLt_irrefl as]

theorem refLt_trans : ∀ {x y z : Reference},
    refLt x y = true → refLt y z = true → refLt x z = true
  | [], [], _, h1, _ => by simp [refLt] at h1
  | [], _ :: _, [], _, h2 => by simp [refLt] at h2
  | [], _ :: _, _ :: _, _, _ => by simp [refLt]
  | _ :: _, [], _, h1, _ => by simp [refLt] at h1
  | _ :: _, _ :: _, [], _, h2 => by simp [refLt] at h2
  | a :: as, b :: bs, c :: cs, h1, h2 => by
      simp [refLt] at h1 h2 ⊢
      rcases h1 with h1 | ⟨rfl, h1⟩
      · rcases h2 with h2 | ⟨rfl, h2⟩
        · exact Or.inl (Comp.lt_trans h1 h2)
        · exact Or.inl h1
      · rcases h2 with h2 | ⟨rfl, h2⟩
        · exact Or.inl h2
        · exact Or.inr ⟨rfl, refLt_trans h1 h2⟩

theorem refLt_asymm {x y : Reference} (h : refLt x y = true) : refLt y x = false := by
  cases hyx : refLt y x with
  | false => rfl
  | true =>
    have := refLt_trans h hyx
    rw [refLt_irrefl] at this
    exact absurd this (by simp)

theorem refLt_total : ∀ (x y : Reference), refLt x y = true ∨ x = y ∨ refLt y x = true
  | [], [] => Or.inr (Or.inl rfl)
  | [], _ :: _ => Or.inl (by simp [refLt])
  | _ :: _, [] => Or.inr (Or.inr (by simp [refLt]))
  | a :: as, b :: bs => by
      rcases Comp.lt_total a b with h | h | h
      · exact Or.inl (by simp [refLt, h])
      · subst h
        rcases refLt_total as bs with h2 | h2 | h2
        · exact Or.inl (by simp [refLt, h2])
        · exact Or.inr (Or.inl (by rw [h2]))
        · exact Or.inr (Or.inr (by simp [refLt, h2]))
      · exact Or.inr (Or.inr (by simp [refLt, h]))

theorem refLe_refl (x : Reference) : refLe x x = true := by simp [refLe]

theorem refLe_of_refLt {x y : Reference} (h : refLt x y = true) : refLe x y = true := by
  simp [refLe, h]

theorem refLe_of_not_refLt {x y : Reference} (h : refLt x y = false) : refLe y x = true := by
  rcases refLt_total x y with h2 | h2 | h2
  · rw [h2] at h; exact absurd h (by simp)
  · subst h2; exact refLe_refl x
  · exact refLe_of_refLt h2

theorem not_refLt_of_refLe {x y : Reference} (h : refLe x y = true) : refLt y x = false := by
  simp [refLe] at h
  rcases h with h | rfl
  · exact refLt_asymm h
  · exact refLt_irrefl x

theorem refLe_trans {x y z : Reference} (h1 : refLe x y = true) (h2 : refLe y z = true) :
    refLe x z = true := by
  simp [refLe] at h1 h2 ⊢
  rcases h1 with h1 | rfl
  · rcases h2 with h2 | rfl
    · exact Or.inl (refLt_trans h1 h2)
    · exact Or.inl h1
  · rcases h2 with h2 | rfl
    · exact Or.inl h2
    · exact Or.inr rfl

theorem refLt_of_refLe_of_refLt {x y z : Reference} (h1 : refLe x y = true)
    (h2 : refLt y z = true) : refLt x z = true := by
  simp [refLe] at h1
  rcases h1 with h1 | rfl
  · exact refLt_trans h1 h2
  · exact h2

theorem isPrefixOf_refl : ∀ (x : Reference), isPrefixOf x x = true
  | [] => rfl
  | _ :: as => by simp [isPrefixOf, isPrefixOf_refl as]

theorem isPrefixOf_refLe : ∀ {p d : Reference}, isPrefixOf p d = true → refLe p d = true
  | [], [], _ => refLe_refl []
  | [], _ :: _, _ => by simp [refLe, refLt]
  | _ :: _, [], h => by simp [isPrefixOf] at h
  | _ :: as, b :: bs, h => by
      simp [isPrefixOf] at h
      obtain ⟨rfl, h2⟩ := h
      have ih := isPrefixOf_refLe h2
      simp [refLe, refLt] at ih ⊢
      rcases ih with h3 | rfl
      · exact Or.inl (Or.inr h3)
      · exact Or.inr rfl

theorem isPrefixOf_ne_refLt : ∀ {p d : Reference},
    isPrefixOf p d = true → p ≠ d → refLt p d = true
  | [], [], _, hne => absurd rfl hne
  | [], _ :: _, _, _ => by simp [refLt]
  | _ :: _, [], h, _ => by simp [isPrefixOf] at h
  | a :: as, b :: bs, h, hne => by
      simp [isPrefixOf] at h
      obtain ⟨rfl, h2⟩ := h
      have hne2 : as ≠ bs := by
        intro he; exact hne (by rw [he])
      simp [refLt]
      exact Or.inr (isPrefixOf_ne_refLt h2 hne2)

theorem isPrefixOf_of_both : ∀ {p k d : Reference}, isPrefixOf p d = true →
    isPrefixOf k d = true → p.length ≤ k.length → isPrefixOf p k = true
  | [], _, _, _, _, _ => rfl
  | _ :: _, [], _, _, _, hlen => by simp at hlen
  | _ :: _, _ :: _, [], hp, _, _ => by simp [isPrefixOf] at hp
  | a :: as, b :: bs, c :: cs, hp, hk, hlen => by
      simp [isPrefixOf] at hp hk ⊢
      obtain ⟨rfl, hp2⟩ := hp
      obtain ⟨rfl, hk2⟩ := hk
      simp at hlen
      exact ⟨rfl, isPrefixOf_of_both hp2 hk2 hlen⟩

/-- Among the keys that are prefixes of the same destination, the
lexicographic order agrees with chain length. -/
theorem length_le_of_prefixes_refLe {p k d : Reference} (hp : isPrefixOf p d = true)
    (hk : isPrefixOf k d = true) (hle : refLe p k = true) : p.length ≤ k.length := by
  by_contra hgt
  push_neg at hgt
  have hkp : isPrefixOf k p = true := isPrefixOf_of_both hk hp (le_of_lt hgt)
  have hne : k ≠ p := by
    intro he; rw [he] at hgt; exact lt_irrefl _ hgt
  have hlt : refLt k p = true := isPrefixOf_ne_refLt hkp hne
  have := not_refLt_of_refLe hle
  rw [this] at hlt
  exact absurd hlt (by simp)

/-- Contiguity of the prefix block: any reference between a given
reference `d` and an extension of `d` is itself an extension of `d`. -/
theorem isPrefixOf_between : ∀ {d k k' : Reference}, refLe d k = true →
    refLt k k' = true → isPrefixOf d k' = true → isPrefixOf d k = true
  | [], _, _, _, _, _ => rfl
  | _ :: _, k, [], _, hlt, _ => by
      cases k <;> simp [refLt] at hlt
  | c :: ds, k, b :: bs, hle, hlt, hpre => by
      simp [isPrefixOf] at hpre
      obtain ⟨rfl, hpre2⟩ := hpre
      cases k with
      | nil => simp [refLe, refLt] at hle
      | cons a as =>
        simp [refLe, refLt] at hle hlt
        rcases hle with (h1 | ⟨rfl, h1⟩) | ⟨rfl, rfl⟩
        · rcases hlt with h2 | ⟨rfl, h2⟩
          · have := Comp.lt_asymm h1
            rw [this] at h2
            exact absurd h2 (by simp)
          · rw [Comp.lt_irrefl] at h1
            exact absurd h1 (by simp)
        · rcases hlt with h2 | ⟨_, h2⟩
          · rw [Comp.lt_irrefl] at h2
            exact absurd h2 (by simp)
          · simp [isPrefixOf]
            exact isPrefixOf_between (refLe_of_refLt h1) h2 hpre2
        · exact isPrefixOf_refl _

/-! ## Data model (`mailbox.rs`) -/

/-- `ActorId` (from `reference.rs`, shape per the spec §3): composite
identifier `(world, proc, name, pid)`. -/
structure ActorId where
  world : String
  rank : Nat
  name : String
  pid : Nat
deriving DecidableEq, Repr

/-- The reference chain corresponding to an actor id. -/
def ActorId.toRef (a : ActorId) : Reference :=
  [.str a.world, .num a.rank, .str a.name, .num a.pid]

/-- `PortId`: pair of an `ActorId` and a port index. -/
structure PortId where
  actor : ActorId
  index : Nat
deriving DecidableEq, Repr

/-- `DeliveryError` (mailbox.rs): the three delivery-error kinds. -/
inductive DeliveryError where
  | Unroutable (reason : String)
  | BrokenLink (reason : String)
  | Mailbox (reason : String)
deriving DecidableEq, Repr

/-- `Serialized`: an opaque serialized payload. `wellFormed` records
whether `deserialized()` succeeds for the destination port's type. -/
structure Serialized where
  payload : Nat
  wellFormed : Bool
deriving DecidableEq, Repr

/-- `Attrs`: the typed header map, carried opaquely by the mailbox. -/
abbrev Attrs := List (String × Nat)

/-- `MessageEnvelope` (mailbox.rs): sender, destination, serialized
payload, optional delivery error, and headers. -/
structure MessageEnvelope where
  sender : ActorId
  dest : PortId
  data : Serialized
  error : Option DeliveryError
  headers : Attrs
deriving DecidableEq, Repr

/-- `MessageEnvelope::new`: a fresh envelope has no error. -/
def MessageEnvelope.new (sender : ActorId) (dest : PortId) (data : Serialized)
    (headers : Attrs) : MessageEnvelope :=
  { sender := sender, dest := dest, data := data, error := none, headers := headers }

/-- `MessageEnvelope::try_set_error`: sets a delivery error only if none
is already set. -/
def MessageEnvelope.try_set_error (env : MessageEnvelope) (error : DeliveryError) :
    MessageEnvelope :=
  match env.error with
  | none => { env with error := some error }
  | some _ => env

/-- `MessageMetadata`: envelope metadata without payload. -/
structure MessageMetadata where
  sender : ActorId
  dest : PortId
  error : Option DeliveryError
  headers : Attrs
deriving DecidableEq, Repr

/-- `MessageEnvelope::open`: split an envelope into metadata and payload. -/
def MessageEnvelope.openMeta (env : MessageEnvelope) : MessageMetadata × Serialized :=
  ({ sender := env.sender, dest := env.dest, error := env.error, headers := env.headers },
   env.data)

/-- `MessageEnvelope::seal`: rebuild an envelope from metadata and payload. -/
def MessageEnvelope.seal (m : MessageMetadata) (d : Serialized) : MessageEnvelope :=
  { sender := m.sender, dest := m.dest, data := d, error := m.error, headers := m.headers }

/-! ## Port senders (type-erased `SerializedSender`s) -/

/-- The state of a port binding in the mailbox port map: an
`UnboundedSender` (mpsc or function-backed), a `OnceSender` (slot
present / receiver alive), or an `UntypedUnboundedSender`. `sendOk`
records whether the underlying enqueue succeeds. -/
inductive PortEntry where
  | unbounded (sendOk : Bool)
  | once (present : Bool) (receiverAlive : Bool)
  | untyped (sendOk : Bool)
deriving DecidableEq, Repr

/-- Result of `send_serialized`: `Ok(still_valid)` or an error carrying
back the headers and data. -/
inductive SendOutcome where
  | ok (still_valid : Bool)
  | err (headers : Attrs) (data : Serialized) (msg : String)
deriving DecidableEq, Repr

/-- `OnceSender::send_once`: takes the stored one-shot sender under a
lock; returns `Ok(false)` on success, `Closed` if already taken or the
receiver is gone. First component is the result, second the new slot
state (the slot is consumed by any call that finds it present). -/
def OnceSender.send_once (present receiverAlive : Bool) : Except String Bool × Bool :=
  if present then
    if receiverAlive then (.ok false, false)
    else (.error "once port closed", false)
  else (.error "once port closed", false)

/-- `send_serialized` for each sender kind. Deserialization failures and
underlying send failures return the headers and data for resealing. -/
def sendSerialized : PortEntry → Attrs → Serialized → SendOutcome × PortEntry
  | .unbounded sendOk, h, d =>
    if d.wellFormed then
      if sendOk then (.ok true, .unbounded sendOk)
      else (.err h d "send error", .unbounded sendOk)
    else (.err h d "deserialization error", .unbounded sendOk)
  | .once present alive, h, d =>
    if d.wellFormed then
      match OnceSender.send_once present alive with
      | (.ok sv, present') => (.ok sv, .once present' alive)
      | (.error msg, present') => (.err h d msg, .once present' alive)
    else (.err h d "deserialization error", .once present alive)
  | .untyped sendOk, h, d =>
    if sendOk then (.ok true, .untyped sendOk)
    else (.err h d "send error", .untyped sendOk)

/-! ## Mailbox -/

/-- `USER_PORT_OFFSET`: the first 1024 port indices are reserved for
actor handlers. -/
def USER_PORT_OFFSET : Nat := 1024

/-- `State` of a mailbox: owning actor id, port map, next port counter.
The forwarder is not part of the state here; forwarding is surfaced as a
`PostEffect`. -/
structure Mailbox where
  actor_id : ActorId
  ports : List (Nat × PortEntry)
  next_port : Nat
deriving DecidableEq, Repr

/-- Association-list view of the `DashMap` port table: lookup. -/
def lookupPort : List (Nat × PortEntry) → Nat → Option PortEntry
  | [], _ => none
  | (k, e) :: rest, idx => if k = idx then some e else lookupPort rest idx

/-- `entry.remove()`: remove a port index from the table. -/
def removePort : List (Nat × PortEntry) → Nat → List (Nat × PortEntry)
  | [], _ => []
  | (k, e) :: rest, idx =>
    if k = idx then removePort rest idx else (k, e) :: removePort rest idx

/-- Replace the entry stored at an (occupied) index; models interior
mutation of the stored sender. -/
def updatePort : List (Nat × PortEntry) → Nat → PortEntry → List (Nat × PortEntry)
  | [], _, _ => []
  | (k, e) :: rest, idx, e' =>
    if k = idx then (k, e') :: rest else (k, e) :: updatePort rest idx e'

/-- `entry.insert(..)` on a vacant entry. -/
def insertPort (ports : List (Nat × PortEntry)) (idx : Nat) (e : PortEntry) :
    List (Nat × PortEntry) :=
  ports ++ [(idx, e)]

/-- `State::new` initializes the counter at `USER_PORT_OFFSET`. -/
def Mailbox.new (actor_id : ActorId) : Mailbox :=
  { actor_id := actor_id, ports := [], next_port := USER_PORT_OFFSET }

/-- `State::allocate_port`: `fetch_add(1)` on the `u64` counter, returning
the previous value (wrapping at `2 ^ 64`). -/
def Mailbox.allocate_port (mb : Mailbox) : Nat × Mailbox :=
  (mb.next_port, { mb with next_port := (mb.next_port + 1) % 2 ^ 64 })

/-- The observable effect of a `post`: delegated to the forwarder,
returned to the return handle, delivered locally, or a panic. -/
inductive PostEffect where
  | forwarded (env : MessageEnvelope)
  | returned (env : MessageEnvelope)
  | delivered
  | panicked (msg : String)
deriving DecidableEq, Repr

/-- `impl MailboxSender for Mailbox`: `post`. Dispatch per the source:
forward non-local destinations; unbound port returns the envelope marked
`Unroutable`; otherwise `send_serialized`, removing the entry on
`Ok(false)` and resealing + returning the envelope marked `Mailbox(..)`
on `Err`. -/
def Mailbox.post (mb : Mailbox) (env : MessageEnvelope) : Mailbox × PostEffect :=
  if env.dest.actor ≠ mb.actor_id then
    (mb, .forwarded env)
  else
    match lookupPort mb.ports env.dest.index with
    | none =>
      (mb, .returned (env.try_set_error (.Unroutable "port not bound in mailbox")))
    | some entry =>
      let md := env.openMeta
      match sendSerialized entry md.1.headers md.2 with
      | (.ok false, _) =>
        ({ mb with ports := removePort mb.ports env.dest.index }, .delivered)
      | (.ok true, _) => (mb, .delivered)
      | (.err h d msg, entry') =>
        ({ mb with ports := updatePort mb.ports env.dest.index entry' },
         .returned ((MessageEnvelope.seal { md.1 with headers := h } d).try_set_error
            (.Mailbox msg)))

/-- `PanickingMailboxSender::post` always panics. -/
def PanickingMailboxSender.post (_env : MessageEnvelope) : PostEffect :=
  .panicked "panic! in the mailbox!"

/-- `PortHandle`: mailbox's actor id, port index, the sender to install
on bind, and the `OnceLock<PortId>` bound cell. -/
structure PortHandle where
  actor_id : ActorId
  port_index : Nat
  sender : PortEntry
  bound : Option PortId
deriving DecidableEq, Repr

/-- `Mailbox::bind`: install the handle's sender at its index if vacant
(occupied entries are left untouched); returns the `PortId`. -/
def Mailbox.bind (mb : Mailbox) (h : PortHandle) : Mailbox × PortId :=
  let port_id : PortId := { actor := mb.actor_id, index := h.port_index }
  match lookupPort mb.ports h.port_index with
  | none => ({ mb with ports := insertPort mb.ports h.port_index h.sender }, port_id)
  | some _ => (mb, port_id)

/-- `Mailbox::bind_to`: bind at a caller-chosen index; an occupied slot
is a panic (`port already bound`). -/
def Mailbox.bind_to (mb : Mailbox) (port_index : Nat) (sender : PortEntry) :
    Except String Mailbox :=
  match lookupPort mb.ports port_index with
  | none => .ok { mb with ports := insertPort mb.ports port_index sender }
  | some _ => .error "port already bound"

/-- `PortHandle::bind`: `bound.get_or_init(|| mailbox.bind(self))`; only
the first call touches the mailbox. -/
def PortHandle.bind (h : PortHandle) (mb : Mailbox) : PortHandle × Mailbox × PortId :=
  match h.bound with
  | some pid => (h, mb, pid)
  | none =>
    let r := mb.bind h
    ({ h with bound := some r.2 }, r.1, r.2)

/-- `Mailbox::open_port`: allocate a fresh index and build an unbounded
handle (the port map is untouched until bind). -/
def Mailbox.open_port (mb : Mailbox) : PortHandle × Mailbox :=
  let r := mb.allocate_port
  ({ actor_id := mb.actor_id, port_index := r.1, sender := .unbounded true, bound := none },
   r.2)

/-- `OncePortHandle`: actor id, port index and port id. -/
structure OncePortHandle where
  actor_id : ActorId
  port_index : Nat
  port_id : PortId
deriving DecidableEq, Repr

/-- `Mailbox::open_once_port`: allocate a fresh index for a one-shot
port. -/
def Mailbox.open_once_port (mb : Mailbox) : OncePortHandle × Mailbox :=
  let r := mb.allocate_port
  ({ actor_id := mb.actor_id, port_index := r.1,
     port_id := { actor := mb.actor_id, index := r.1 } }, r.2)

/-- `Mailbox::open_accum_port` allocates its index through
`allocate_port` like every other open (the accumulating queue itself is
modelled below as `AccumPort`). -/
def Mailbox.open_accum_port (mb : Mailbox) : Nat × Mailbox :=
  mb.allocate_port

/-- `Mailbox::open_enqueue_port` allocates its index through
`allocate_port`. -/
def Mailbox.open_enqueue_port (mb : Mailbox) : Nat × Mailbox :=
  mb.allocate_port

/-- The port index produced by the `i`-th successive allocation on a
mailbox (each `open_*_port` performs exactly one allocation). -/
def allocNth (mb : Mailbox) : Nat → Nat
  | 0 => (mb.allocate_port).1
  | i + 1 => allocNth (mb.allocate_port).2 i

/-! ## Mailbox lemmas -/

theorem lookupPort_removePort : ∀ (ports : List (Nat × PortEntry)) (idx : Nat),
    lookupPort (removePort ports idx) idx = none
  | [], _ => rfl
  | (k, e) :: rest, idx => by
    by_cases hk : k = idx
    · simp [removePort, hk, lookupPort_removePort rest idx]
    · simp [removePort, hk, lookupPort, lookupPort_removePort rest idx]

theorem allocNth_eq (i : Nat) : ∀ (mb : Mailbox), mb.next_port < 2 ^ 64 →
    allocNth mb i = (mb.next_port + i) % 2 ^ 64 := by
  induction i with
  | zero =>
    intro mb h
    simp [allocNth, Mailbox.allocate_port]
    exact (Nat.mod_eq_of_lt h).symm
  | succ i ih =>
    intro mb h
    have h2 : (mb.next_port + 1) % 2 ^ 64 < 2 ^ 64 :=
      Nat.mod_lt _ (by norm_num)
    calc allocNth mb (i + 1)
        = allocNth (mb.allocate_port).2 i := rfl
      _ = ((mb.next_port + 1) % 2 ^ 64 + i) % 2 ^ 64 := ih _ h2
      _ = (mb.next_port + 1 + i) % 2 ^ 64 := Nat.mod_add_mod ..
      _ = (mb.next_port + (i + 1)) % 2 ^ 64 := by ring_nf

/-! ## Claim C4: try_set_error is first-write-wins -/

/-- C4: for every envelope with no recorded error, `try_set_error e` sets
the error to `some e`; for every envelope whose error is already
`some e0`, `try_set_error e` leaves the envelope (error included)
completely unchanged. -/
theorem C4_try_set_error_first_wins (env : MessageEnvelope) (e : DeliveryError) :
    (env.error = none → env.try_set_error e = { env with error := some e }) ∧
    (∀ e0, env.error = some e0 → env.try_set_error e = env) := by
  constructor
  · intro h
    simp [MessageEnvelope.try_set_error, h]
  · intro e0 h
    simp [MessageEnvelope.try_set_error, h]

/-- Witness for C4 at a concrete envelope. -/
theorem C4_witness :
    (MessageEnvelope.new ⟨"w", 0, "a", 0⟩ ⟨⟨"w", 0, "b", 0⟩, 1024⟩ ⟨7, true⟩ []).error
        = none ∧
    (MessageEnvelope.new ⟨"w", 0, "a", 0⟩ ⟨⟨"w", 0, "b", 0⟩, 1024⟩ ⟨7, true⟩
        []).try_set_error (.Unroutable "x") =
      { MessageEnvelope.new ⟨"w", 0, "a", 0⟩ ⟨⟨"w", 0, "b", 0⟩, 1024⟩ ⟨7, true⟩ [] with
        error := some (.Unroutable "x") } :=
  ⟨rfl, (C4_try_set_error_first_wins
    (MessageEnvelope.new ⟨"w", 0, "a", 0⟩ ⟨⟨"w", 0, "b", 0⟩, 1024⟩ ⟨7, true⟩ [])
    (.Unroutable "x")).1 rfl⟩

/-! ## Claim C1: Mailbox::post dispatch rule -/

/-- C1: the dispatch rule of `Mailbox::post`. A non-local destination is
delegated unchanged to the forwarder; a local destination with an
unbound port index is returned marked `Unroutable("port not bound in
mailbox")`; otherwise `send_serialized` is consulted: `Ok(false)`
removes the entry, `Ok(true)` does nothing else, and `Err` reseals the
envelope from the returned headers and data, stamps a `Mailbox(..)`
error, and returns it to the return handle. -/
theorem C1_post_dispatch (mb : Mailbox) (env : MessageEnvelope) :
    (env.dest.actor ≠ mb.actor_id → Mailbox.post mb env = (mb, .forwarded env)) ∧
    (env.dest.actor = mb.actor_id →
      (lookupPort mb.ports env.dest.index = none →
        Mailbox.post mb env =
          (mb, .returned (env.try_set_error (.Unroutable "port not bound in mailbox")))) ∧
      (∀ entry, lookupPort mb.ports env.dest.index = some entry →
        (∀ entry', sendSerialized entry env.headers env.data = (.ok false, entry') →
          Mailbox.post mb env =
            ({ mb with ports := removePort mb.ports env.dest.index }, .delivered)) ∧
        (∀ entry', sendSerialized entry env.headers env.data = (.ok true, entry') →
          Mailbox.post mb env = (mb, .delivered)) ∧
        (∀ h d msg entry',
          sendSerialized entry env.headers env.data = (.err h d msg, entry') →
          Mailbox.post mb env =
            ({ mb with ports := updatePort mb.ports env.dest.index entry' },
             .returned ((MessageEnvelope.seal
                { sender := env.sender, dest := env.dest, error := env.error, headers := h }
                d).try_set_error (.Mailbox msg)))))) := by
  refine ⟨fun hne => by simp [Mailbox.post, hne], fun heq => ⟨fun hlk => ?_, ?_⟩⟩
  · simp [Mailbox.post, heq, hlk]
  · intro entry hlk
    refine ⟨fun entry' hss => ?_, fun entry' hss => ?_, fun h d msg entry' hss => ?_⟩ <;>
      simp [Mailbox.post, heq, hlk, MessageEnvelope.openMeta, hss]

/-- Witness for C1 at a concrete mailbox and envelope (local delivery to
a bound unbounded port). -/
theorem C1_witness :
    (⟨⟨"w", 0, "a", 0⟩, 1024⟩ : PortId).actor = (⟨"w", 0, "a", 0⟩ : ActorId) ∧
    lookupPort [(1024, PortEntry.unbounded true)] 1024 = some (.unbounded true) ∧
    sendSerialized (.unbounded true) [] ⟨7, true⟩ = (.ok true, .unbounded true) ∧
    Mailbox.post ⟨⟨"w", 0, "a", 0⟩, [(1024, .unbounded true)], 1025⟩
        (MessageEnvelope.new ⟨"w", 0, "s", 0⟩ ⟨⟨"w", 0, "a", 0⟩, 1024⟩ ⟨7, true⟩ []) =
      (⟨⟨"w", 0, "a", 0⟩, [(1024, .unbounded true)], 1025⟩, .delivered) :=
  ⟨rfl, rfl, rfl,
    ((C1_post_dispatch ⟨⟨"w", 0, "a", 0⟩, [(1024, .unbounded true)], 1025⟩
      (MessageEnvelope.new ⟨"w", 0, "s", 0⟩ ⟨⟨"w", 0, "a", 0⟩, 1024⟩ ⟨7, true⟩ [])).2
      rfl).2 (.unbounded true) rfl |>.2.1 (.unbounded true) rfl⟩

/-! ## Claim C9: no-panic dispatch -/

/-- C9: local dispatch through `Mailbox::post` never panics: for every
envelope whose destination actor equals the mailbox's own actor id, the
effect is either a local delivery or a post to the return handle. The
panics reachable through the mailbox model are exactly posting through
`PanickingMailboxSender` and `bind_to` on an occupied index. -/
theorem C9_no_panic_dispatch :
    (∀ (mb : Mailbox) (env : MessageEnvelope), env.dest.actor = mb.actor_id →
      (Mailbox.post mb env).2 = .delivered ∨
        ∃ env', (Mailbox.post mb env).2 = .returned env') ∧
    (∀ env, PanickingMailboxSender.post env = .panicked "panic! in the mailbox!") ∧
    (∀ (mb : Mailbox) (idx : Nat) (s : PortEntry),
      (∃ e, Mailbox.bind_to mb idx s = .error e) ↔ (lookupPort mb.ports idx).isSome = true) := by
  refine ⟨fun mb env heq => ?_, fun _ => rfl, fun mb idx s => ?_⟩
  · rcases hlk : lookupPort mb.ports env.dest.index with _ | entry
    · exact Or.inr ⟨env.try_set_error (.Unroutable "port not bound in mailbox"),
        by simp [Mailbox.post, heq, hlk]⟩
    · rcases hss : sendSerialized entry env.headers env.data with ⟨o, entry'⟩
      rcases o with sv | ⟨h, d, msg⟩
      · cases sv
        · exact Or.inl (by simp [Mailbox.post, heq, hlk, MessageEnvelope.openMeta, hss])
        · exact Or.inl (by simp [Mailbox.post, heq, hlk, MessageEnvelope.openMeta, hss])
      · exact Or.inr ⟨(MessageEnvelope.seal
            { sender := env.sender, dest := env.dest, error := env.error, headers := h }
            d).try_set_error (.Mailbox msg),
          by simp [Mailbox.post, heq, hlk, MessageEnvelope.openMeta, hss]⟩
  · rcases hlk : lookupPort mb.ports idx with _ | entry <;>
      simp [Mailbox.bind_to, hlk]

/-! ## Claim C10: bind idempotence -/

/-- C10: for an unbound `PortHandle`, the first `bind` returns the
`PortId` made of the mailbox's actor id and the handle's port index;
a repeated `bind` returns the same `PortId` and leaves both the handle
and the mailbox (hence the installed sender) unchanged; and `Mailbox::bind`
on an occupied index never replaces the installed sender. -/
theorem C10_bind_idempotence (mb : Mailbox) (h : PortHandle) (hb : h.bound = none) :
    (h.bind mb).2.2 = { actor := mb.actor_id, index := h.port_index } ∧
    ((h.bind mb).1.bind (h.bind mb).2.1).2.2 = (h.bind mb).2.2 ∧
    ((h.bind mb).1.bind (h.bind mb).2.1).1 = (h.bind mb).1 ∧
    ((h.bind mb).1.bind (h.bind mb).2.1).2.1 = (h.bind mb).2.1 ∧
    (∀ s, lookupPort mb.ports h.port_index = some s → (mb.bind h).1 = mb) := by
  rcases hlk : lookupPort mb.ports h.port_index with _ | s
  · refine ⟨?_, ?_, ?_, ?_, ?_⟩ <;>
      simp [PortHandle.bind, Mailbox.bind, hb, hlk]
  · refine ⟨?_, ?_, ?_, ?_, ?_⟩ <;>
      simp [PortHandle.bind, Mailbox.bind, hb, hlk]

/-- Witness for C10 at a concrete handle and mailbox. -/
theorem C10_witness :
    (PortHandle.mk ⟨"w", 0, "a", 0⟩ 1024 (.unbounded true) none).bound = none ∧
    ((PortHandle.mk ⟨"w", 0, "a", 0⟩ 1024 (.unbounded true) none).bind
        (Mailbox.new ⟨"w", 0, "a", 0⟩)).2.2 =
      { actor := ⟨"w", 0, "a", 0⟩, index := 1024 } :=
  ⟨rfl, (C10_bind_idempotence (Mailbox.new ⟨"w", 0, "a", 0⟩)
    (PortHandle.mk ⟨"w", 0, "a", 0⟩ 1024 (.unbounded true) none) rfl).1⟩

/-! ## Claim C3: one-shot at-most-once -/

/-- C3: the first successful `send_serialized` on a once port takes the
stored one-shot sink and returns `still_valid = false`, upon which
`Mailbox::post` removes the port entry from the ports map; any further
`send_once` on the taken sender fails with `Closed`, and the port index
is no longer present in the mailbox map. -/
theorem C3_once_at_most_once (mb : Mailbox) (env : MessageEnvelope)
    (hdest : env.dest.actor = mb.actor_id)
    (hlk : lookupPort mb.ports env.dest.index = some (.once true true))
    (hwf : env.data.wellFormed = true) :
    sendSerialized (.once true true) env.headers env.data = (.ok false, .once false true) ∧
    Mailbox.post mb env =
      ({ mb with ports := removePort mb.ports env.dest.index }, .delivered) ∧
    lookupPort (Mailbox.post mb env).1.ports env.dest.index = none ∧
    (∀ alive, OnceSender.send_once false alive = (.error "once port closed", false)) ∧
    (∀ (hs : Attrs) (d : Serialized), d.wellFormed = true →
      sendSerialized (.once false true) hs d = (.err hs d "once port closed", .once false true)) := by
  have hss : sendSerialized (.once true true) env.headers env.data =
      (.ok false, .once false true) := by
    simp [sendSerialized, OnceSender.send_once, hwf]
  have hpost : Mailbox.post mb env =
      ({ mb with ports := removePort mb.ports env.dest.index }, .delivered) := by
    simp [Mailbox.post, hdest, hlk, MessageEnvelope.openMeta, hss]
  refine ⟨hss, hpost, ?_, fun alive => rfl, fun hs d hd => ?_⟩
  · rw [hpost]
    exact lookupPort_removePort mb.ports env.dest.index
  · simp [sendSerialized, OnceSender.send_once, hd]

/-- Witness for C3 at a concrete mailbox with a bound once port. -/
theorem C3_witness :
    (⟨⟨"w", 0, "a", 0⟩, 1024⟩ : PortId).actor = (⟨"w", 0, "a", 0⟩ : ActorId) ∧
    lookupPort [(1024, PortEntry.once true true)] 1024 = some (.once true true) ∧
    (Serialized.mk 7 true).wellFormed = true ∧
    Mailbox.post ⟨⟨"w", 0, "a", 0⟩, [(1024, .once true true)], 1025⟩
        (MessageEnvelope.new ⟨"w", 0, "s", 0⟩ ⟨⟨"w", 0, "a", 0⟩, 1024⟩ ⟨7, true⟩ []) =
      (⟨⟨"w", 0, "a", 0⟩, [], 1025⟩, .delivered) :=
  ⟨rfl, rfl, rfl,
    (C3_once_at_most_once ⟨⟨"w", 0, "a", 0⟩, [(1024, .once true true)], 1025⟩
      (MessageEnvelope.new ⟨"w", 0, "s", 0⟩ ⟨⟨"w", 0, "a", 0⟩, 1024⟩ ⟨7, true⟩ [])
      rfl rfl rfl).2.1⟩

/-! ## Claim C8: port uniqueness -/

/-- C8: on one mailbox every `open_*_port` call allocates through
`allocate_port`; starting from `State::new` the `i`-th allocated index
is `USER_PORT_OFFSET + i` (as long as the `u64` counter does not wrap),
so distinct calls yield distinct indices, all at least
`USER_PORT_OFFSET`, strictly monotonically increasing. -/
theorem C8_port_uniqueness (aid : ActorId) (i j : Nat) (hij : i < j)
    (hbound : USER_PORT_OFFSET + j < 2 ^ 64) :
    USER_PORT_OFFSET ≤ allocNth (Mailbox.new aid) i ∧
    allocNth (Mailbox.new aid) i < allocNth (Mailbox.new aid) j ∧
    allocNth (Mailbox.new aid) i ≠ allocNth (Mailbox.new aid) j ∧
    (∀ mb : Mailbox,
      ((mb.open_port).1.port_index = (mb.allocate_port).1 ∧
        (mb.open_port).2 = (mb.allocate_port).2) ∧
      ((mb.open_once_port).1.port_index = (mb.allocate_port).1 ∧
        (mb.open_once_port).2 = (mb.allocate_port).2) ∧
      mb.open_accum_port = mb.allocate_port ∧
      mb.open_enqueue_port = mb.allocate_port) := by
  have hnp : (Mailbox.new aid).next_port = USER_PORT_OFFSET := rfl
  have hlt : (Mailbox.new aid).next_port < 2 ^ 64 := by
    rw [hnp]; omega
  have hi : allocNth (Mailbox.new aid) i = USER_PORT_OFFSET + i := by
    rw [allocNth_eq i (Mailbox.new aid) hlt, hnp]
    exact Nat.mod_eq_of_lt (by omega)
  have hj : allocNth (Mailbox.new aid) j = USER_PORT_OFFSET + j := by
    rw [allocNth_eq j (Mailbox.new aid) hlt, hnp]
    exact Nat.mod_eq_of_lt (by omega)
  refine ⟨by omega, by omega, by omega, fun mb => ?_⟩
  exact ⟨⟨rfl, rfl⟩, ⟨rfl, rfl⟩, rfl, rfl⟩

/-- Witness for C8 with two concrete allocations. -/
theorem C8_witness :
    (0 : Nat) < 1 ∧ USER_PORT_OFFSET + 1 < 2 ^ 64 ∧
    USER_PORT_OFFSET ≤ allocNth (Mailbox.new ⟨"w", 0, "a", 0⟩) 0 ∧
    allocNth (Mailbox.new ⟨"w", 0, "a", 0⟩) 0 < allocNth (Mailbox.new ⟨"w", 0, "a", 0⟩) 1 :=
  ⟨by decide, by norm_num [USER_PORT_OFFSET],
    (C8_port_uniqueness ⟨"w", 0, "a", 0⟩ 0 1 (by decide)
      (by norm_num [USER_PORT_OFFSET])).1,
    (C8_port_uniqueness ⟨"w", 0, "a", 0⟩ 0 1 (by decide)
      (by norm_num [USER_PORT_OFFSET])).2.1⟩

/-! ## Accumulator ports (`open_accum_port` enqueue and `PortReceiver`) -/

/-- The state behind an accumulator port: the locked accumulated
`A::State` and the mpsc queue of emitted state snapshots. -/
structure AccumPort (S : Type) where
  state : S
  queue : List S
deriving DecidableEq, Repr

/-- A freshly opened accumulator port: `Mutex::new(A::State::default())`
and an empty channel (`s0` is the default state). -/
def openAccumPort {S : Type} (s0 : S) : AccumPort S :=
  { state := s0, queue := [] }

/-- The enqueue closure of `open_accum_port`: under the lock, fold the
update into the state with `accum.accumulate` and send a clone of the
new state on the channel. A failing `accumulate` sends nothing. -/
def accumSend {S U : Type} (accumulate : S → U → Option S) (p : AccumPort S) (u : U) :
    AccumPort S :=
  match accumulate p.state u with
  | some s' => { state := s', queue := p.queue ++ [s'] }
  | none => p

/-- Consecutive sends on the accumulator handle. -/
def sendAll {S U : Type} (accumulate : S → U → Option S) (p : AccumPort S)
    (us : List U) : AccumPort S :=
  us.foldl (accumSend accumulate) p

/-- The loop body of `PortReceiver::drain`: with `coalesce` set, the
previously drained message is popped before each push. -/
def drainAcc {S : Type} (coalesce : Bool) : List S → List S → List S
  | drained, [] => drained
  | drained, m :: rest =>
    drainAcc coalesce ((if coalesce then drained.dropLast else drained) ++ [m]) rest

/-- `PortReceiver::recv` on a coalescing receiver: take the head of the
queue, then drain the rest and keep only the latest if any. A recv on an
empty queue would suspend (modelled as `none`). -/
def recvAccum {S : Type} (p : AccumPort S) : Option S × AccumPort S :=
  match p.queue with
  | [] => (none, p)
  | m :: rest =>
    match (drainAcc true [] rest).getLast? with
    | some latest => (some latest, { p with queue := [] })
    | none => (some m, { p with queue := [] })

theorem drainAcc_coalesce {S : Type} : ∀ (q acc : List S), acc.length ≤ 1 →
    drainAcc true acc q = ((q.getLast?.map fun x => [x]).getD acc) := by
  intro q
  induction q with
  | nil => intro acc _; simp [drainAcc]
  | cons m rest ih =>
    intro acc hlen
    have hdrop : acc.dropLast = [] := by
      cases acc with
      | nil => rfl
      | cons a t =>
        cases t with
        | nil => rfl
        | cons b t2 => simp at hlen
    rw [drainAcc, if_pos rfl, hdrop, List.nil_append]
    rw [ih [m] (by simp)]
    cases rest with
    | nil => simp
    | cons r rs =>
      simp only [List.getLast?_cons_cons]
      rcases hx : (r :: rs).getLast? with _ | x
      · have : r :: rs ≠ [] := by simp
        rw [← List.getLast?_isSome, hx] at this
        simp at this
      · simp [hx]

theorem sendAll_spec {S U : Type} (accumulate : S → U → Option S) :
    ∀ (us : List U) (s0 : S) (q : List S) (sf : S), us ≠ [] →
    us.foldlM (fun s u => accumulate s u) s0 = some sf →
    (sendAll accumulate ⟨s0, q⟩ us).state = sf ∧
    (sendAll accumulate ⟨s0, q⟩ us).queue.getLast? = some sf := by
  intro us
  induction us with
  | nil => intro _ _ _ hne _; exact absurd rfl hne
  | cons u rest ih =>
    intro s0 q sf _ hfold
    rw [List.foldlM_cons] at hfold
    rcases Option.bind_eq_some.mp hfold with ⟨s1, hacc, hrest⟩
    have hstep : sendAll accumulate ⟨s0, q⟩ (u :: rest) =
        sendAll accumulate ⟨s1, q ++ [s1]⟩ rest := by
      simp [sendAll, accumSend, hacc]
    cases rest with
    | nil =>
      simp at hrest
      subst hrest
      rw [hstep]
      simp [sendAll]
    | cons r rs =>
      rw [hstep]
      exact ih s1 (q ++ [s1]) sf (by simp) hrest

/-! ## Claim C5: accumulator coalescing -/

/-- C5: on an accumulator port, consecutive sends of updates
`u1, ..., un` (n ≥ 1, each `accumulate` succeeding) with no interleaving
receive, followed by a single `recv`, return the fold of the accumulator
over the initial (default) state and the updates in order; the receive
drains the queued intermediate states, returning only the latest, and
leaves the queue empty. -/
theorem C5_accum_coalescing {S U : Type} (accumulate : S → U → Option S) (s0 : S)
    (us : List U) (sf : S) (hne : us ≠ [])
    (hfold : us.foldlM (fun s u => accumulate s u) s0 = some sf) :
    recvAccum (sendAll accumulate (openAccumPort s0) us) =
      (some sf, { state := sf, queue := [] }) := by
  show recvAccum (sendAll accumulate ⟨s0, []⟩ us) = (some sf, { state := sf, queue := [] })
  obtain ⟨hstate, hlast⟩ := sendAll_spec accumulate us s0 [] sf hne hfold
  rcases hsa : sendAll accumulate ⟨s0, []⟩ us with ⟨st, qu⟩
  rw [hsa] at hstate hlast
  simp only at hstate hlast
  subst hstate
  cases qu with
  | nil => simp at hlast
  | cons m rest =>
    simp only [recvAccum]
    rw [drainAcc_coalesce rest [] (by simp)]
    cases rest with
    | nil =>
      simp at hlast ⊢
      rw [hlast]
    | cons r rs =>
      rw [List.getLast?_cons_cons] at hlast
      rcases hrl : (r :: rs).getLast? with _ | x
      · rw [hrl] at hlast
        exact absurd hlast (by simp)
      · rw [hrl] at hlast
        simp at hlast
        simp [hrl, hlast]

/-- Witness for C5: a sum accumulator over three updates. -/
theorem C5_witness :
    ([1, 2, 3] : List Nat) ≠ [] ∧
    recvAccum (sendAll (fun (s u : Nat) => some (s + u)) (openAccumPort 0) [1, 2, 3]) =
      (some 6, { state := 6, queue := [] }) :=
  ⟨by decide,
    C5_accum_coalescing (fun s u => some (s + u)) 0 [1, 2, 3] 6 (by decide) (by decide)⟩

/-! ## Split ports (`CanSplitPort::split` and `SplitPortBuffer`) -/

/-- `SplitPortBuffer::push`: append the update; once the buffer reaches
`limit` (= `SPLIT_MAX_BUFFER_SIZE`) items, take the whole buffer out for
flushing. -/
def SplitPortBuffer.push (limit : Nat) (buf : List Serialized) (s : Serialized) :
    List Serialized × Option (List Serialized) :=
  let buf' := buf ++ [s]
  if limit ≤ buf'.length then ([], some buf') else (buf', none)

/-- The enqueue closure installed by `split` when a reducer is present:
push under the lock; on a full buffer invoke `reduce_updates` once on the
batch and post the single reduced result to the original port. Returns
the new buffer and the list of messages posted by this call. -/
def splitEnqueueReduced (limit : Nat) (reduce_updates : List Serialized → Serialized)
    (buf : List Serialized) (s : Serialized) : List Serialized × List Serialized :=
  match SplitPortBuffer.push limit buf s with
  | (buf', some batch) => (buf', [reduce_updates batch])
  | (buf', none) => (buf', [])

/-- A sequence of sends through the reducer-backed split endpoint,
accumulating the buffer and everything posted to the original port. -/
def runSplitReduced (limit : Nat) (reduce_updates : List Serialized → Serialized)
    (start : List Serialized × List Serialized) (us : List Serialized) :
    List Serialized × List Serialized :=
  us.foldl (fun acc u =>
    let st := splitEnqueueReduced limit reduce_updates acc.1 u
    (st.1, acc.2 ++ st.2)) start

/-- The enqueue closure installed by `split` with no reducer: every
update is posted verbatim to the original port. -/
def splitEnqueueVerbatim (u : Serialized) : List Serialized := [u]

/-- A sequence of sends through the no-reducer split endpoint. -/
def runSplitVerbatim (us : List Serialized) : List Serialized :=
  us.foldl (fun posts u => posts ++ splitEnqueueVerbatim u) []

theorem runSplitReduced_under (limit : Nat) (reduce_updates : List Serialized → Serialized) :
    ∀ (us buf posts : List Serialized), buf.length + us.length < limit →
    runSplitReduced limit reduce_updates (buf, posts) us = (buf ++ us, posts) := by
  intro us
  induction us with
  | nil => intro buf posts _; simp [runSplitReduced]
  | cons u rest ih =>
    intro buf posts hlt
    have hstep : splitEnqueueReduced limit reduce_updates buf u = (buf ++ [u], []) := by
      simp only [splitEnqueueReduced, SplitPortBuffer.push]
      rw [if_neg (by simp at hlt ⊢; omega)]
    have : runSplitReduced limit reduce_updates (buf, posts) (u :: rest) =
        runSplitReduced limit reduce_updates (buf ++ [u], posts) rest := by
      simp [runSplitReduced, hstep]
    rw [this, ih (buf ++ [u]) posts (by simp at hlt ⊢; omega)]
    simp

theorem runSplitVerbatim_aux : ∀ (us acc : List Serialized),
    us.foldl (fun posts u => posts ++ splitEnqueueVerbatim u) acc = acc ++ us := by
  intro us
  induction us with
  | nil => intro acc; simp
  | cons u rest ih =>
    intro acc
    rw [List.foldl_cons, ih]
    simp [splitEnqueueVerbatim]

/-! ## Claim C6: split-port reducer batching -/

/-- C6: on a reducer-backed split endpoint, when the buffered updates
reach `SPLIT_MAX_BUFFER_SIZE` the reducer is invoked exactly once on the
batch and the single reduced result is posted to the original port; a
residual tail of fewer than `SPLIT_MAX_BUFFER_SIZE` buffered updates is
never flushed or posted; with no reducer every update is forwarded
verbatim (in order) to the original port. -/
theorem C6_split_reducer_batching (limit : Nat)
    (reduce_updates : List Serialized → Serialized) :
    (∀ (buf : List Serialized) (u : Serialized), buf.length + 1 = limit →
      splitEnqueueReduced limit reduce_updates buf u = ([], [reduce_updates (buf ++ [u])])) ∧
    (∀ us : List Serialized, us.length < limit →
      runSplitReduced limit reduce_updates ([], []) us = (us, [])) ∧
    (∀ us : List Serialized, runSplitVerbatim us = us) := by
  refine ⟨fun buf u hfull => ?_, fun us hlt => ?_, fun us => ?_⟩
  · simp only [splitEnqueueReduced, SplitPortBuffer.push]
    rw [if_pos (by simp; omega)]
  · have := runSplitReduced_under limit reduce_updates us [] [] (by simpa using hlt)
    simpa using this
  · exact runSplitVerbatim_aux us []

/-- Witness for C6 with `SPLIT_MAX_BUFFER_SIZE = 2` and a sum reducer. -/
theorem C6_witness :
    (([⟨1, true⟩] : List Serialized).length + 1 = 2 ∧
      splitEnqueueReduced 2
        (fun batch => ⟨(batch.map Serialized.payload).sum, true⟩)
        [⟨1, true⟩] ⟨2, true⟩ = ([], [⟨3, true⟩])) ∧
    (([⟨5, true⟩] : List Serialized).length < 2 ∧
      runSplitReduced 2 (fun batch => ⟨(batch.map Serialized.payload).sum, true⟩)
        ([], []) [⟨5, true⟩] = ([⟨5, true⟩], [])) := by
  have h := C6_split_reducer_batching 2
    (fun batch => ⟨(batch.map Serialized.payload).sum, true⟩)
  refine ⟨⟨by decide, ?_⟩, ⟨by decide, h.2.1 [⟨5, true⟩] (by decide)⟩⟩
  have h2 := h.1 [⟨1, true⟩] ⟨2, true⟩ (by decide)
  rw [h2]
  rfl

/-! ## MailboxRouter: prefix routing -/

/-- Sorted-table invariant of a `BTreeMap` keyed by references. -/
def SortedByRef {β : Type} (l : List (Reference × β)) : Prop :=
  List.Pairwise (fun a b => refLt a.1 b.1 = true) l

theorem mem_of_getLastEq {α : Type} : ∀ {l : List α} {x : α}, l.getLast? = some x → x ∈ l
  | [], _, h => by simp at h
  | [a], x, h => by
    simp at h
    simp [h]
  | a :: b :: t, x, h => by
    rw [List.getLast?_cons_cons] at h
    exact List.mem_cons_of_mem a (mem_of_getLastEq h)

theorem refLe_getLast_of_sorted {β : Type} : ∀ {l : List (Reference × β)}
    {x last : Reference × β}, SortedByRef l → x ∈ l → l.getLast? = some last →
    refLe x.1 last.1 = true
  | [], _, _, _, hx, _ => by simp at hx
  | [a], x, last, _, hx, hl => by
    simp at hx hl
    rw [hx, ← hl]
    exact refLe_refl _
  | a :: b :: t, x, last, hs, hx, hl => by
    rw [List.getLast?_cons_cons] at hl
    rcases List.mem_cons.mp hx with rfl | hx2
    · have hlast : last ∈ b :: t := mem_of_getLastEq hl
      have halt : refLt x.1 last.1 = true :=
        (List.pairwise_cons.mp hs).1 last hlast
      exact refLe_of_refLt halt
    · exact refLe_getLast_of_sorted (List.pairwise_cons.mp hs).2 hx2 hl

/-- `MailboxRouter::post` resolution:
`entries.lower_bound(Excluded(&dest)).prev()` on the sorted table, i.e.
the greatest key less than or equal to the destination. -/
def resolvePrev (table : List (Reference × Nat)) (d : Reference) :
    Option (Reference × Nat) :=
  (table.filter (fun kv => refLe kv.1 d)).getLast?

/-- The resolution rule exactly as the claim words it: the greatest key
strictly less than the destination. Stated from the spec's words, for
comparison with `resolvePrev`, which embeds the code. -/
def resolveStrictLt (table : List (Reference × Nat)) (d : Reference) :
    Option (Reference × Nat) :=
  (table.filter (fun kv => refLt kv.1 d)).getLast?

/-- The observable result of a router post: dispatched to a bound sender
(identified by a numeric id) or returned to the return handle. -/
inductive RouteResult where
  | sent (sender : Nat) (env : MessageEnvelope)
  | returned (env : MessageEnvelope)
deriving DecidableEq, Repr

/-- `impl MailboxSender for MailboxRouter`: resolve the greatest key at
most the destination; dispatch if it is a prefix of the destination,
otherwise return the envelope marked `Unroutable`. -/
def MailboxRouter.post (table : List (Reference × Nat)) (env : MessageEnvelope) :
    RouteResult :=
  match resolvePrev table env.dest.actor.toRef with
  | none =>
    .returned (env.try_set_error
      (.Unroutable "no destination found for actor in routing table"))
  | some kv =>
    if isPrefixOf kv.1 env.dest.actor.toRef then .sent kv.2 env
    else
      .returned (env.try_set_error
        (.Unroutable "no destination found for actor in routing table"))

theorem resolvePrev_mem {table : List (Reference × Nat)} {d : Reference}
    {k : Reference} {s : Nat} (h : resolvePrev table d = some (k, s)) :
    (k, s) ∈ table ∧ refLe k d = true := by
  have hmem := mem_of_getLastEq h
  have := List.mem_filter.mp hmem
  exact ⟨this.1, by simpa using this.2⟩

theorem resolvePrev_max {table : List (Reference × Nat)} {d : Reference}
    {k : Reference} {s : Nat} (hs : SortedByRef table)
    (h : resolvePrev table d = some (k, s)) :
    ∀ kv ∈ table, refLe kv.1 d = true → refLe kv.1 k = true := by
  intro kv hkv hle
  have hfs : SortedByRef (table.filter (fun kv => refLe kv.1 d)) :=
    List.Pairwise.filter _ hs
  have hmem : kv ∈ table.filter (fun kv => refLe kv.1 d) :=
    List.mem_filter.mpr ⟨hkv, by simpa using hle⟩
  exact refLe_getLast_of_sorted hfs hmem h

theorem resolvePrev_none {table : List (Reference × Nat)} {d : Reference}
    (h : resolvePrev table d = none) :
    ∀ kv ∈ table, refLe kv.1 d = false := by
  intro kv hkv
  by_contra hne
  have hle : refLe kv.1 d = true := by
    cases hx : refLe kv.1 d
    · exact absurd hx hne
    · rfl
  have hmem : kv ∈ table.filter (fun kv => refLe kv.1 d) :=
    List.mem_filter.mpr ⟨hkv, by simpa using hle⟩
  rcases hq : table.filter (fun kv => refLe kv.1 d) with _ | ⟨a, t⟩
  · rw [hq] at hmem; simp at hmem
  · rw [resolvePrev, hq] at h
    have : (a :: t).getLast? = some ((a :: t).getLast (by simp)) :=
      List.getLast?_eq_getLast _ _
    rw [this] at h
    simp at h

/-! ## Claim C2: prefix routing (amended) -/

/-- C2 (amended): `MailboxRouter::post` resolves the greatest key less
than *or equal to* the destination reference (lower bound with the
destination excluded, stepped back) and dispatches to that key's sender
iff the key is a prefix of the destination; when it dispatches, the
resolved key is the greatest — and hence longest — key in the table
that is a prefix of the destination; if the resolved key is not a prefix
of the destination (in particular if no key is at most the destination),
the envelope is returned marked `Unroutable`, even when some smaller
bound key is a prefix of the destination. When the resolution is empty
no bound key is a prefix of the destination at all. -/
theorem C2_prefix_routing_amended (table : List (Reference × Nat)) (env : MessageEnvelope)
    (hsorted : SortedByRef table) :
    (∀ k s, resolvePrev table env.dest.actor.toRef = some (k, s) →
      isPrefixOf k env.dest.actor.toRef = true →
      MailboxRouter.post table env = .sent s env ∧
      (∀ kv ∈ table, isPrefixOf kv.1 env.dest.actor.toRef = true →
        refLe kv.1 k = true ∧ kv.1.length ≤ k.length)) ∧
    (∀ k s, resolvePrev table env.dest.actor.toRef = some (k, s) →
      isPrefixOf k env.dest.actor.toRef = false →
      MailboxRouter.post table env =
        .returned (env.try_set_error
          (.Unroutable "no destination found for actor in routing table"))) ∧
    (resolvePrev table env.dest.actor.toRef = none →
      MailboxRouter.post table env =
        .returned (env.try_set_error
          (.Unroutable "no destination found for actor in routing table")) ∧
      ∀ kv ∈ table, isPrefixOf kv.1 env.dest.actor.toRef = false) := by
  refine ⟨fun k s hres hpre => ⟨?_, fun kv hkv hkvpre => ?_⟩,
    fun k s hres hpre => ?_, fun hres => ⟨?_, fun kv hkv => ?_⟩⟩
  · simp [MailboxRouter.post, hres, hpre]
  · have hle : refLe kv.1 k = true :=
      resolvePrev_max hsorted hres kv hkv (isPrefixOf_refLe hkvpre)
    exact ⟨hle, length_le_of_prefixes_refLe hkvpre hpre hle⟩
  · simp [MailboxRouter.post, hres, hpre]
  · simp [MailboxRouter.post, hres]
  · cases hp : isPrefixOf kv.1 env.dest.actor.toRef
    · rfl
    · have h1 := resolvePrev_none hres kv hkv
      have h2 := isPrefixOf_refLe hp
      rw [h1] at h2
      exact absurd h2 (by simp)

/-- Counterexample to C2 as stated. First input: the destination's own
reference is bound in the table; the greatest key *strictly less* than
the destination does not exist, so the claim predicts an `Unroutable`
return, yet the router dispatches (the code takes the greatest key less
than *or equal*). Second input: a bound key `[w, 0]` is the longest
prefix of the destination `w[0].b[0]`, but the greatest key at most the
destination is the non-prefix key `w[0].a[5]`, so the router returns the
envelope `Unroutable` instead of dispatching to the longest prefix as
the claim states. -/
theorem C2_counterexample :
    resolveStrictLt [([Comp.str "w", Comp.num 0, Comp.str "a", Comp.num 0], 7)]
        (ActorId.toRef ⟨"w", 0, "a", 0⟩) = none ∧
    MailboxRouter.post [([Comp.str "w", Comp.num 0, Comp.str "a", Comp.num 0], 7)]
        (MessageEnvelope.new ⟨"u", 0, "u", 0⟩ ⟨⟨"w", 0, "a", 0⟩, 1024⟩ ⟨1, true⟩ []) =
      .sent 7 (MessageEnvelope.new ⟨"u", 0, "u", 0⟩ ⟨⟨"w", 0, "a", 0⟩, 1024⟩ ⟨1, true⟩ []) ∧
    isPrefixOf [Comp.str "w", Comp.num 0] (ActorId.toRef ⟨"w", 0, "b", 0⟩) = true ∧
    MailboxRouter.post
        [([Comp.str "w", Comp.num 0], 3),
         ([Comp.str "w", Comp.num 0, Comp.str "a", Comp.num 5], 9)]
        (MessageEnvelope.new ⟨"u", 0, "u", 0⟩ ⟨⟨"w", 0, "b", 0⟩, 1024⟩ ⟨1, true⟩ []) =
      .returned ((MessageEnvelope.new ⟨"u", 0, "u", 0⟩ ⟨⟨"w", 0, "b", 0⟩, 1024⟩
          ⟨1, true⟩ []).try_set_error
        (.Unroutable "no destination found for actor in routing table")) := by
  refine ⟨by decide, by decide, by decide, by decide⟩

/-- Witness for the amended C2 at a concrete sorted table where the
longest bound prefix is dispatched. -/
theorem C2_witness :
    SortedByRef [([Comp.str "w"], 3),
      ([Comp.str "w", Comp.num 0, Comp.str "a", Comp.num 0], 7)] ∧
    MailboxRouter.post
        [([Comp.str "w"], 3), ([Comp.str "w", Comp.num 0, Comp.str "a", Comp.num 0], 7)]
        (MessageEnvelope.new ⟨"u", 0, "u", 0⟩ ⟨⟨"w", 0, "a", 0⟩, 1024⟩ ⟨1, true⟩ []) =
      .sent 7 (MessageEnvelope.new ⟨"u", 0, "u", 0⟩ ⟨⟨"w", 0, "a", 0⟩, 1024⟩ ⟨1, true⟩ []) := by
  have hsorted : SortedByRef [([Comp.str "w"], 3),
      ([Comp.str "w", Comp.num 0, Comp.str "a", Comp.num 0], 7)] := by
    constructor
    · intro b hb
      simp at hb
      rw [hb]
      decide
    · constructor
      · intro b hb
        simp at hb
      · constructor
  refine ⟨hsorted, ?_⟩
  exact ((C2_prefix_routing_amended
    [([Comp.str "w"], 3), ([Comp.str "w", Comp.num 0, Comp.str "a", Comp.num 0], 7)]
    (MessageEnvelope.new ⟨"u", 0, "u", 0⟩ ⟨⟨"w", 0, "a", 0⟩, 1024⟩ ⟨1, true⟩ [])
    hsorted).1 [Comp.str "w", Comp.num 0, Comp.str "a", Comp.num 0] 7
    (by decide) (by decide)).1

/-! ## DialMailboxRouter -/

theorem dropWhile_sorted_eq_filter {β : Type} (dest : Reference) :
    ∀ (l : List (Reference × β)), SortedByRef l →
    l.dropWhile (fun kv => refLt kv.1 dest) = l.filter (fun kv => !(refLt kv.1 dest))
  | [], _ => rfl
  | kv :: rest, hs => by
    rcases List.pairwise_cons.mp hs with ⟨hhd, htl⟩
    cases hlt : refLt kv.1 dest with
    | true =>
      rw [List.dropWhile_cons]
      simp only [hlt, if_true, List.filter_cons, Bool.not_true, if_false]
      rw [dropWhile_sorted_eq_filter dest rest htl]
      simp
    | false =>
      rw [List.dropWhile_cons]
      simp only [hlt, if_false, List.filter_cons, Bool.not_false, if_true]
      have hrest : rest.filter (fun kv => !(refLt kv.1 dest)) = rest := by
        rw [List.filter_eq_self]
        intro y hy
        have h1 : refLe dest kv.1 = true := refLe_of_not_refLt hlt
        have h2 : refLt dest y.1 = true := refLt_of_refLe_of_refLt h1 (hhd y hy)
        simp [refLt_asymm h2]
      rw [hrest]
      simp

theorem takeWhile_block_eq_filter {β : Type} (dest : Reference) :
    ∀ (l : List (Reference × β)), SortedByRef l →
    (∀ kv ∈ l, refLe dest kv.1 = true) →
    l.takeWhile (fun kv => isPrefixOf dest kv.1) =
      l.filter (fun kv => isPrefixOf dest kv.1)
  | [], _, _ => rfl
  | kv :: rest, hs, hge => by
    rcases List.pairwise_cons.mp hs with ⟨hhd, htl⟩
    cases hp : isPrefixOf dest kv.1 with
    | true =>
      rw [List.takeWhile_cons]
      simp only [hp, if_true, List.filter_cons]
      rw [takeWhile_block_eq_filter dest rest htl
        (fun y hy => hge y (List.mem_cons_of_mem _ hy))]
    | false =>
      rw [List.takeWhile_cons]
      simp only [hp, if_false, List.filter_cons]
      have hrest : rest.filter (fun kv => isPrefixOf dest kv.1) = [] := by
        rw [List.filter_eq_nil_iff]
        intro y hy hyp
        have hk : isPrefixOf dest kv.1 = true :=
          isPrefixOf_between (hge kv (by simp)) (hhd y hy) hyp
        rw [hp] at hk
        exact absurd hk (by simp)
      rw [hrest]
      simp

/-- The collected removal range of `unbind`,
`range(dest..).take_while(is_prefix_of)`, is exactly the set of entries
whose key extends `dest`. -/
theorem splitRemove_eq_filter {β : Type} (dest : Reference) (book : List (Reference × β))
    (hs : SortedByRef book) :
    (book.dropWhile (fun kv => refLt kv.1 dest)).takeWhile
        (fun kv => isPrefixOf dest kv.1) =
      book.filter (fun kv => isPrefixOf dest kv.1) := by
  rw [dropWhile_sorted_eq_filter dest book hs]
  rw [takeWhile_block_eq_filter dest _ (List.Pairwise.filter _ hs)
    (by
      intro kv hkv
      have h2 := (List.mem_filter.mp hkv).2
      simp at h2
      exact refLe_of_not_refLt h2)]
  rw [List.filter_filter]
  apply List.filter_congr
  intro kv _
  cases hp : isPrefixOf dest kv.1 with
  | false => simp [hp]
  | true =>
    have hle := isPrefixOf_refLe hp
    have hnlt := not_refLt_of_refLe hle
    simp [hp, hnlt]

/-- `DialMailboxRouter` state: the address book (a sorted map from
references to channel addresses) and the sender cache keyed by address
(cached clients identified by a numeric id). -/
structure DialMailboxRouter where
  address_book : List (Reference × String)
  sender_cache : List (String × Nat)
deriving DecidableEq, Repr

/-- `DialMailboxRouter::unbind`: collect `range(dest..)` entries as long
as `dest` is a prefix of the key; remove each collected key from the
book and evict each collected address from the sender cache. -/
def DialMailboxRouter.unbind (r : DialMailboxRouter) (dest : Reference) :
    DialMailboxRouter :=
  let to_remove := (r.address_book.dropWhile (fun kv => refLt kv.1 dest)).takeWhile
    (fun kv => isPrefixOf dest kv.1)
  { address_book :=
      r.address_book.filter (fun kv => decide (kv.1 ∉ to_remove.map Prod.fst)),
    sender_cache :=
      r.sender_cache.filter (fun kv => decide (kv.1 ∉ to_remove.map Prod.snd)) }

/-! ## Claim C7: unbind removes exactly the prefix range -/

/-- C7: `unbind(ref)` removes from the address book exactly the entries
whose key has `ref` as a prefix — all other entries remain — and evicts
from the sender cache exactly the senders keyed by a removed entry's
address. -/
theorem C7_unbind_prefix_removal (r : DialMailboxRouter) (dest : Reference)
    (hsorted : SortedByRef r.address_book) :
    (r.unbind dest).address_book =
      r.address_book.filter (fun kv => !(isPrefixOf dest kv.1)) ∧
    (r.unbind dest).sender_cache =
      r.sender_cache.filter (fun kv =>
        decide (kv.1 ∉ (r.address_book.filter
          (fun kv2 => isPrefixOf dest kv2.1)).map Prod.snd)) := by
  have hto := splitRemove_eq_filter dest r.address_book hsorted
  constructor
  · simp only [DialMailboxRouter.unbind, hto]
    apply List.filter_congr
    intro kv hkv
    cases hp : isPrefixOf dest kv.1 with
    | true =>
      have hmem : kv.1 ∈ (r.address_book.filter
          (fun kv2 => isPrefixOf dest kv2.1)).map Prod.fst :=
        List.mem_map.mpr ⟨kv, List.mem_filter.mpr ⟨hkv, by simp [hp]⟩, rfl⟩
      simp [hmem]
    | false =>
      have hnot : kv.1 ∉ (r.address_book.filter
          (fun kv2 => isPrefixOf dest kv2.1)).map Prod.fst := by
        intro hmem
        rcases List.mem_map.mp hmem with ⟨kv', hkv', heq⟩
        have h2 := (List.mem_filter.mp hkv').2
        rw [heq] at h2
        rw [hp] at h2
        exact absurd h2 (by simp)
      simp [hnot]
  · simp only [DialMailboxRouter.unbind, hto]

/-- Witness for C7: unbinding `[w]` removes the `w[0]` entry and evicts
its cached address, leaving the `[x]` entry and its cache intact. -/
theorem C7_witness :
    SortedByRef [([Comp.str "w", Comp.num 0], "addr1"), ([Comp.str "x"], "addr2")] ∧
    (DialMailboxRouter.unbind
        ⟨[([Comp.str "w", Comp.num 0], "addr1"), ([Comp.str "x"], "addr2")],
         [("addr1", 1), ("addr2", 2)]⟩ [Comp.str "w"]).address_book =
      ([([Comp.str "w", Comp.num 0], "addr1"), ([Comp.str "x"], "addr2")].filter
        (fun kv => !(isPrefixOf [Comp.str "w"] kv.1))) := by
  have hsorted : SortedByRef
      [([Comp.str "w", Comp.num 0], "addr1"), ([Comp.str "x"], "addr2")] := by
    constructor
    · intro b hb
      simp at hb
      rw [hb]
      decide
    · constructor
      · intro b hb
        simp at hb
      · constructor
  exact ⟨hsorted, (C7_unbind_prefix_removal
    ⟨[([Comp.str "w", Comp.num 0], "addr1"), ([Comp.str "x"], "addr2")],
     [("addr1", 1), ("addr2", 2)]⟩ [Comp.str "w"] hsorted).1⟩

/-- Witness for C9: a local post to an unbound port on a fresh mailbox
does not panic; it surfaces as a return-to-sender. -/
theorem C9_witness :
    (⟨⟨"w", 0, "a", 0⟩, 2000⟩ : PortId).actor = (⟨"w", 0, "a", 0⟩ : ActorId) ∧
    ((Mailbox.post (Mailbox.new ⟨"w", 0, "a", 0⟩)
        (MessageEnvelope.new ⟨"w", 0, "s", 0⟩ ⟨⟨"w", 0, "a", 0⟩, 2000⟩ ⟨1, true⟩ [])).2 =
          .delivered ∨
      ∃ env', (Mailbox.post (Mailbox.new ⟨"w", 0, "a", 0⟩)
        (MessageEnvelope.new ⟨"w", 0, "s", 0⟩ ⟨⟨"w", 0, "a", 0⟩, 2000⟩ ⟨1, true⟩ [])).2 =
          .returned env') :=
  ⟨rfl, (C9_no_panic_dispatch).1 (Mailbox.new ⟨"w", 0, "a", 0⟩)
    (MessageEnvelope.new ⟨"w", 0, "s", 0⟩ ⟨⟨"w", 0, "a", 0⟩, 2000⟩ ⟨1, true⟩ []) rfl⟩
